import Mathlib

/-!
Verification of the timestamp-aware chunking pipeline of the YoutubeRAG-agent
repository (`load_to_chroma.py`, `app.py`).

Strings of the Python source are modelled as `List Char` in the indexing
pipeline (so that character offsets are plain list indices) and as Lean
`String` in the query-time rendering code.  Python floats (caption start
times) are modelled as rationals `ℚ`; the pipeline only copies and compares
them, never does float arithmetic, so this is exact.
-/

/-- A transcript buffer: a Python string viewed as its list of characters. -/
abbrev Buf := List Char

/-- One caption snippet as returned by the transcript fetcher:
`snippet.text` and `snippet.start`. -/
structure Snippet where
  text : Buf
  start : ℚ
deriving DecidableEq, Repr

/-- One emitted chunk dict: `{"text": ..., "start_time": ...}`
(`load_to_chroma.py` lines 96-99). -/
structure Chunk where
  text : Buf
  start_time : ℚ
deriving DecidableEq, Repr

/-- The timestamp-map builder loop of `create_chunks_with_timestamps`
(`load_to_chroma.py` lines 57-65): iterates snippets, records
`timestamp_map[current_pos] = snippet.start`, appends `snippet.text + " "`
to `full_transcript` and advances `current_pos` by the appended length.
The Python dict is insertion-ordered with distinct keys, so it is modelled
as the association list in insertion order. -/
def buildTranscriptAux : Buf → List (Nat × ℚ) → Nat → List Snippet → Buf × List (Nat × ℚ)
  | full, tsMap, _, [] => (full, tsMap)
  | full, tsMap, pos, s :: rest =>
      buildTranscriptAux (full ++ (s.text ++ [' '])) (tsMap ++ [(pos, s.start)])
        (pos + (s.text ++ [' ']).length) rest

/-- Entry point of the builder: `full_transcript = ""`, `timestamp_map = {}`,
`current_pos = 0`. -/
def buildTranscript (snippets : List Snippet) : Buf × List (Nat × ℚ) :=
  buildTranscriptAux [] [] 0 snippets

/-- Occurrence test: `occursAt buf sub i` holds when `sub` occurs as a
contiguous substring of `buf` starting exactly at index `i` (the whole of
`sub` fits). -/
def occursAt (buf sub : Buf) (i : Nat) : Bool :=
  (buf.drop i).take sub.length == sub

/-- Python `buf.find(sub, start)`: index of the first occurrence of `sub` in
`buf` at or after `start`, `none` when there is no such occurrence (Python
returns `-1` there).  Candidate start indices run from `start` to
`buf.length` inclusive. -/
def findFrom (buf sub : Buf) (start : Nat) : Option Nat :=
  (List.range' start (buf.length + 1 - start)).find? (fun i => occursAt buf sub i)

/-- The inner scan of the closest-timestamp loop
(`load_to_chroma.py` lines 89-94): iterate the map in insertion order,
keep overwriting `closest_timestamp` while `pos <= chunk_start_pos`,
`break` at the first entry with `pos > chunk_start_pos`. -/
def closestTimestampFrom (acc : ℚ) : List (Nat × ℚ) → Nat → ℚ
  | [], _ => acc
  | e :: rest, pos => if e.1 ≤ pos then closestTimestampFrom e.2 rest pos else acc

/-- The full closest-timestamp scan: `closest_timestamp` starts at `0`
(`load_to_chroma.py` line 89). -/
def closestTimestamp (tsMap : List (Nat × ℚ)) (pos : Nat) : ℚ :=
  closestTimestampFrom 0 tsMap pos

/-- Python whitespace for `str.strip()` (ASCII range actually occurring in
transcripts). -/
def isPySpace (c : Char) : Bool :=
  c == ' ' || c == '\t' || c == '\n' || c == '\r' || c == '\x0b' || c == '\x0c'

/-- Python `str.strip()`: drop leading and trailing whitespace. -/
def pyStrip (s : Buf) : Buf :=
  ((s.dropWhile isPySpace).reverse.dropWhile isPySpace).reverse

/-- One iteration of the chunk-locator loop, instrumented: the cursor value
before the step, the resolved offset, the raw chunk text, and the chunk dict
actually appended. -/
structure LocStep where
  searchStart : Nat
  resolvedPos : Nat
  rawText : Buf
  chunk : Chunk
deriving DecidableEq, Repr

/-- The chunk-locator loop of `create_chunks_with_timestamps`
(`load_to_chroma.py` lines 79-102), instrumented with the per-iteration
state: `chunk_start_pos = full_transcript.find(chunk_text, search_start)`
with fallback to `search_start` itself when the search fails; the chunk is
appended as `{"text": chunk_text.strip(), "start_time": closest_timestamp}`;
then `search_start = chunk_start_pos + len(chunk_text)`. -/
def locateChunksAux (buffer : Buf) (tsMap : List (Nat × ℚ)) :
    Nat → List Buf → List LocStep
  | _, [] => []
  | searchStart, chunkText :: rest =>
      let chunkStartPos := (findFrom buffer chunkText searchStart).getD searchStart
      { searchStart := searchStart
        resolvedPos := chunkStartPos
        rawText := chunkText
        chunk := { text := pyStrip chunkText
                   start_time := closestTimestamp tsMap chunkStartPos } }
        :: locateChunksAux buffer tsMap (chunkStartPos + chunkText.length) rest

/-- The list of chunk dicts the loop builds (the `chunks` list of the
source); projection of the instrumented trace. -/
def locateChunks (buffer : Buf) (tsMap : List (Nat × ℚ)) (searchStart : Nat)
    (chunkTexts : List Buf) : List Chunk :=
  (locateChunksAux buffer tsMap searchStart chunkTexts).map LocStep.chunk

-- Spec-side definitions (stated from the specification's words, for
-- comparison with the source-derived definitions above).

/-- Modelled from the spec: the buffer is "the concatenation of every
snippet's text each followed by a single space". -/
def catTexts : List Snippet → Buf
  | [] => []
  | s :: rest => (s.text ++ [' ']) ++ catTexts rest

/-- Modelled from the spec: the map records, for each snippet in order, the
offset at which its text begins in the buffer, paired with its start time;
`pos` is the offset of the first remaining snippet. -/
def offsetsFrom (pos : Nat) : List Snippet → List (Nat × ℚ)
  | [] => []
  | s :: rest => (pos, s.start) :: offsetsFrom (pos + s.text.length + 1) rest

/-- Outcome of the transcript fetch for one video
(`ytt_api.fetch`, `load_to_chroma.py` line 54): either the snippet list, or
one of the exceptions the function catches (`NoTranscriptFound` /
`TranscriptsDisabled` at line 107, any other exception at line 110). -/
inductive FetchResult where
  | ok (snippets : List Snippet)
  | noTranscript
  | fetchError
deriving DecidableEq, Repr

/-- The function `create_chunks_with_timestamps` (`load_to_chroma.py` lines
42-112) for one video, with the two external collaborators supplied as data: the fetch
outcome, and the `RecursiveCharacterTextSplitter.split_text` function
(external library code, passed in abstractly).  On either caught exception
the function returns `[]`; otherwise it builds the buffer and timestamp map,
splits, and runs the chunk locator from `search_start = 0`. -/
def createChunksWithTimestamps (splitText : Buf → List Buf)
    (fetch : FetchResult) : List Chunk :=
  match fetch with
  | .ok snippets =>
      let bm := buildTranscript snippets
      locateChunks bm.1 bm.2 0 (splitText bm.1)
  | .noTranscript => []
  | .fetchError => []

/-- A persisted record: the LangChain `Document` built in the main loop
(`load_to_chroma.py` lines 150-156): `page_content = chunk["text"]`,
metadata `video_url` and `start_time`. -/
structure Record where
  content : Buf
  video_url : String
  start_time : ℚ
deriving DecidableEq, Repr

/-- The documents contributed by one video in the main loop
(`load_to_chroma.py` lines 149-157). -/
def perVideoRecords (splitText : Buf → List Buf) (url : String)
    (fetch : FetchResult) : List Record :=
  (createChunksWithTimestamps splitText fetch).map
    (fun c => { content := c.text, video_url := url, start_time := c.start_time })

/-- The main indexing loop over the batch of videos
(`load_to_chroma.py` lines 140-157): `all_docs` starts empty and each
video's documents are appended in order. -/
def processVideos (splitText : Buf → List Buf)
    (videos : List (String × FetchResult)) : List Record :=
  videos.foldl (fun acc v => acc ++ perVideoRecords splitText v.1 v.2) []

/-- The capping step of `get_video_urls` (`load_to_chroma.py` lines 35-36),
with the yt-dlp playlist extraction (external collaborator) supplied as the
already-extracted URL list.  Python `if max_videos:` is falsy for `None`
and for `0`, so the slice `video_urls[:max_videos]` is only applied for a
non-zero count. -/
def get_video_urls (video_urls : List String) (max_videos : Option Nat) :
    List String :=
  match max_videos with
  | none => video_urls
  | some m => if m = 0 then video_urls else video_urls.take m

/-- Python `int()` on a rational: truncation toward zero (floor for
non-negative arguments, ceiling for negative ones). -/
def pyInt (q : ℚ) : ℤ :=
  if 0 ≤ q then ⌊q⌋ else ⌈q⌉

/-- The function `format_timestamp_link` (`app.py` lines 43-45):
`f"{video_url}&t={int(start_time)}s"`. -/
def format_timestamp_link (video_url : String) (start_time : ℚ) : String :=
  video_url ++ "&t=" ++ toString (pyInt start_time) ++ "s"

/-- One source citation entry built at `app.py` lines 144-152:
`{"link": format_timestamp_link(video_url, start_time), "content": doc.page_content}`. -/
structure SourceEntry where
  link : String
  content : String
deriving DecidableEq, Repr

/-- Building the source entry for one retrieved document
(`app.py` lines 144-152). -/
def mkSource (video_url : String) (start_time : ℚ) (page_content : String) :
    SourceEntry :=
  { link := format_timestamp_link video_url start_time, content := page_content }

/-- The excerpt shown for a source (`app.py` lines 120 and 159):
`source["content"][:200]`. -/
def displayExcerpt (s : SourceEntry) : String :=
  s.content.take 200

/-- One chat message dict in `st.session_state.messages`: `role`,
`content`, and for assistant answers a `sources` key (`app.py` lines 126,
164-168, 173-176). -/
structure ChatMsg where
  role : String
  content : String
  sources : Option (List SourceEntry)
deriving DecidableEq, Repr

/-- The error text built at `app.py` line 171. -/
def errorMessage (e : String) : String :=
  "Sorry, I encountered an error: " ++ e

/-- Handling of one submitted prompt (`app.py` lines 124-176): the user
message is appended first; then the QA-chain call either succeeds (answer
and sources appended as an assistant message) or raises (the error message
appended as an assistant message, session kept). -/
def processPrompt (messages : List ChatMsg) (prompt : String)
    (result : Except String (String × List SourceEntry)) : List ChatMsg :=
  let withUser := messages ++ [{ role := "user", content := prompt, sources := none }]
  match result with
  | .ok a =>
      withUser ++ [{ role := "assistant", content := a.1, sources := some a.2 }]
  | .error e =>
      withUser ++ [{ role := "assistant", content := errorMessage e, sources := none }]

-- Helper lemmas

/-- A successful `find` never returns an index before the requested start. -/
theorem findFrom_ge {buf sub : Buf} {start p : Nat}
    (h : findFrom buf sub start = some p) : start ≤ p := by
  have hm := List.mem_of_find?_eq_some h
  rw [List.mem_range'] at hm
  obtain ⟨i, _, hp⟩ := hm
  omega

/-- The resolved offset (found position, or fallback) is at or after the
cursor. -/
theorem le_resolved (buf sub : Buf) (start : Nat) :
    start ≤ (findFrom buf sub start).getD start := by
  cases h : findFrom buf sub start with
  | none => simp
  | some p => simpa using findFrom_ge h

/-- The first step of the locator trace carries the initial cursor. -/
theorem locateChunksAux_head (buffer : Buf) (tsMap : List (Nat × ℚ))
    (s : Nat) (texts : List Buf) (st : LocStep)
    (h : (locateChunksAux buffer tsMap s texts).head? = some st) :
    st.searchStart = s := by
  cases texts with
  | nil => simp [locateChunksAux] at h
  | cons t ts =>
      simp only [locateChunksAux, List.head?_cons, Option.some.injEq] at h
      rw [← h]

/-- Every step of the locator trace resolves at or after its cursor, at the
position the search dictates, and emits exactly the stripped text with the
closest timestamp of the resolved offset. -/
theorem locateChunksAux_mem (buffer : Buf) (tsMap : List (Nat × ℚ)) :
    ∀ (texts : List Buf) (s : Nat) (st : LocStep),
      st ∈ locateChunksAux buffer tsMap s texts →
      st.searchStart ≤ st.resolvedPos ∧
      st.resolvedPos = (findFrom buffer st.rawText st.searchStart).getD st.searchStart ∧
      st.chunk = { text := pyStrip st.rawText
                   start_time := closestTimestamp tsMap st.resolvedPos } := by
  intro texts
  induction texts with
  | nil => intro s st h; simp [locateChunksAux] at h
  | cons t ts ih =>
      intro s st h
      simp only [locateChunksAux, List.mem_cons] at h
      rcases h with h | h
      · subst h
        exact ⟨le_resolved buffer t s, rfl, rfl⟩
      · exact ih _ st h

/-- C1: across the chunk-locator iteration the running cursor
`search_start` is non-decreasing, resolved offsets are non-decreasing, each
chunk is placed at the first occurrence of its text at or after the cursor
(or at the cursor itself on fallback), and the cursor is then advanced to
the resolved offset plus the chunk length. -/
theorem chunk_locator_monotonic (buffer : Buf) (tsMap : List (Nat × ℚ))
    (texts : List Buf) (s : Nat) :
    List.Chain' (fun a b => a.searchStart ≤ b.searchStart ∧
        a.resolvedPos ≤ b.resolvedPos ∧
        b.searchStart = a.resolvedPos + a.rawText.length)
      (locateChunksAux buffer tsMap s texts) ∧
    ∀ st ∈ locateChunksAux buffer tsMap s texts,
      st.searchStart ≤ st.resolvedPos ∧
      st.resolvedPos = (findFrom buffer st.rawText st.searchStart).getD st.searchStart := by
  refine ⟨?_, fun st h => ⟨(locateChunksAux_mem buffer tsMap texts s st h).1,
    (locateChunksAux_mem buffer tsMap texts s st h).2.1⟩⟩
  induction texts generalizing s with
  | nil => simp [locateChunksAux]
  | cons t ts ih =>
      simp only [locateChunksAux]
      apply List.Chain'.cons' (ih _)
      intro y hy
      have hyhead := locateChunksAux_head buffer tsMap
        ((findFrom buffer t s).getD s + t.length) ts y (Option.mem_def.mp hy)
      have hymem := locateChunksAux_mem buffer tsMap ts
        ((findFrom buffer t s).getD s + t.length) y (List.mem_of_mem_head? hy)
      have hres := le_resolved buffer t s
      refine ⟨?_, ?_, ?_⟩
      · dsimp only
        simp only [hyhead]
        omega
      · dsimp only
        have h1 := hymem.1
        rw [hyhead] at h1
        omega
      · dsimp only
        exact hyhead

/-- Witness for C1 at a concrete buffer, map and chunk sequence. -/
theorem chunk_locator_monotonic_witness :
    List.Chain' (fun a b => a.searchStart ≤ b.searchStart ∧
        a.resolvedPos ≤ b.resolvedPos ∧
        b.searchStart = a.resolvedPos + a.rawText.length)
      (locateChunksAux [] [] 0 [[' ']]) ∧
    (0 : Nat) ≤ (0 : Nat) ∧ (0 : Nat) = (findFrom [] [' '] 0).getD 0 :=
  ⟨(chunk_locator_monotonic [] [] [[' ']] 0).1,
   (chunk_locator_monotonic [] [] [[' ']] 0).2
     { searchStart := 0, resolvedPos := 0, rawText := [' '],
       chunk := { text := [], start_time := 0 } } (by decide)⟩

/-- C4: when the exact text of a chunk has no occurrence at or after the
cursor, the locator resolves it to the cursor itself, and the chunk is
still emitted, with the timestamp resolved from that fallback offset. -/
theorem fallback_on_find_failure (buffer : Buf) (tsMap : List (Nat × ℚ))
    (s : Nat) (t : Buf) (rest : List Buf)
    (h : findFrom buffer t s = none) :
    locateChunks buffer tsMap s (t :: rest) =
      { text := pyStrip t, start_time := closestTimestamp tsMap s }
        :: locateChunks buffer tsMap (s + t.length) rest := by
  simp [locateChunks, locateChunksAux, h]

/-- Witness for C4: the text `"z"` never occurs in the buffer `"a"`. -/
theorem fallback_on_find_failure_witness :
    locateChunks ['a'] [(0, 4)] 0 [['z']] =
      [{ text := ['z'], start_time := closestTimestamp [(0, 4)] 0 }] :=
  fallback_on_find_failure ['a'] [(0, 4)] 0 ['z'] [] (by decide)

/-- C5 counterexample: a whitespace-only chunk text is still emitted, as a
record whose trimmed text is empty — the locator never drops chunks. -/
theorem empty_chunk_still_emitted :
    { text := [], start_time := 0 } ∈ locateChunks [] [] 0 [[' ']] := by
  decide

/-- C5 amended: the locator emits exactly one record per input chunk text,
with the text trimmed; chunk texts that are empty after trimming are not
dropped but emitted with empty text. -/
theorem every_chunk_emitted_trimmed (buffer : Buf) (tsMap : List (Nat × ℚ)) :
    ∀ (texts : List Buf) (s : Nat),
      (locateChunks buffer tsMap s texts).map Chunk.text = texts.map pyStrip := by
  intro texts
  induction texts with
  | nil => intro s; rfl
  | cons t ts ih =>
      intro s
      simp only [locateChunks, locateChunksAux, List.map_cons, List.map_map] at ih ⊢
      exact congrArg _ (ih _)

/-- C7 counterexample: with a configured maximum of `0`, the cap is not
applied (Python `if max_videos:` is falsy at `0`) and the full URL list is
returned, violating "at most that many". -/
theorem cap_of_zero_not_applied :
    get_video_urls ["a"] (some 0) = ["a"] ∧
    ¬ (get_video_urls ["a"] (some 0)).length ≤ 0 := by
  constructor
  · rfl
  · decide

/-- C7 amended: for every positive maximum the enumeration returns at most
that many URLs and preserves playlist order (the result is a prefix of the
input); with a maximum of `0` (or none configured) the list is returned
uncapped. -/
theorem cap_applies_for_positive (urls : List String) (m : Nat) (hm : 0 < m) :
    get_video_urls urls (some m) = urls.take m ∧
    (get_video_urls urls (some m)).length ≤ m ∧
    get_video_urls urls (some m) <+: urls ∧
    get_video_urls urls none = urls := by
  have he : get_video_urls urls (some m) = urls.take m := by
    simp [get_video_urls, Nat.pos_iff_ne_zero.mp hm]
  refine ⟨he, ?_, ?_, rfl⟩
  · rw [he]; exact List.length_take_le m urls
  · rw [he]; exact List.take_prefix m urls

/-- Witness for C7 (amended) at a concrete URL list and maximum. -/
theorem cap_applies_for_positive_witness :
    get_video_urls ["a", "b", "c"] (some 2) = ["a", "b"] ∧
    (get_video_urls ["a", "b", "c"] (some 2)).length ≤ 2 ∧
    get_video_urls ["a", "b", "c"] (some 2) <+: ["a", "b", "c"] ∧
    get_video_urls ["a", "b", "c"] none = ["a", "b", "c"] :=
  cap_applies_for_positive ["a", "b", "c"] 2 (by decide)

/-- C8: for a retrieved record with a non-negative start time the rendered
citation link is the video URL followed by `&t=`, the floor of the start
time, and `s`; the displayed excerpt is the first 200 characters of the
record's content. -/
theorem source_link_format (u : String) (t : ℚ) (c : String) (ht : 0 ≤ t) :
    (mkSource u t c).link = u ++ "&t=" ++ toString ⌊t⌋ ++ "s" ∧
    displayExcerpt (mkSource u t c) = c.take 200 := by
  constructor
  · simp [mkSource, format_timestamp_link, pyInt, ht]
  · rfl

/-- Witness for C8 at a concrete URL, time `7/2` and content. -/
theorem source_link_format_witness :
    (mkSource "https://www.youtube.com/watch?v=x" (7 / 2) "some transcript text").link =
      "https://www.youtube.com/watch?v=x" ++ "&t=" ++ toString ⌊(7 / 2 : ℚ)⌋ ++ "s" ∧
    displayExcerpt (mkSource "https://www.youtube.com/watch?v=x" (7 / 2) "some transcript text") =
      "some transcript text".take 200 :=
  source_link_format "https://www.youtube.com/watch?v=x" (7 / 2)
    "some transcript text" (by norm_num)

/-- C9: when the QA call for a prompt raises, the session history becomes
the old history with the user's question appended and then an assistant
error message appended; in particular every earlier message is preserved
(the old history is a prefix of the new one) and the session stays usable. -/
theorem error_preserves_history (messages : List ChatMsg) (prompt e : String) :
    processPrompt messages prompt (Except.error e) =
      messages ++ [{ role := "user", content := prompt, sources := none },
        { role := "assistant", content := errorMessage e, sources := none }] ∧
    messages <+: processPrompt messages prompt (Except.error e) := by
  constructor
  · simp [processPrompt]
  · exact ⟨[{ role := "user", content := prompt, sources := none },
      { role := "assistant", content := errorMessage e, sources := none }],
      by simp [processPrompt]⟩

/-- Any value the closest-timestamp scan returns is its accumulator or a
value stored in the map. -/
theorem closestTimestampFrom_mem (pos : Nat) :
    ∀ (l : List (Nat × ℚ)) (acc : ℚ),
      closestTimestampFrom acc l pos = acc ∨
        ∃ k, (k, closestTimestampFrom acc l pos) ∈ l := by
  intro l
  induction l with
  | nil => intro acc; left; rfl
  | cons e rest ih =>
      intro acc
      by_cases he : e.1 ≤ pos
      · rcases ih e.2 with h | ⟨k, hk⟩
        · right
          exact ⟨e.1, by simp [closestTimestampFrom, he, h]⟩
        · right
          exact ⟨k, by simp only [closestTimestampFrom, if_pos he]; exact List.mem_cons_of_mem _ hk⟩
      · left
        simp [closestTimestampFrom, he]

/-- C10: every emitted chunk's start time is either `0` or a value stored
in the timestamp map — timestamps are never interpolated or invented. -/
theorem timestamps_never_invented (buffer : Buf) (tsMap : List (Nat × ℚ))
    (s : Nat) (texts : List Buf) (c : Chunk)
    (hc : c ∈ locateChunks buffer tsMap s texts) :
    c.start_time = 0 ∨ ∃ k, (k, c.start_time) ∈ tsMap := by
  simp only [locateChunks, List.mem_map] at hc
  obtain ⟨st, hst, rfl⟩ := hc
  have h := (locateChunksAux_mem buffer tsMap texts s st hst).2.2
  rw [h]
  exact closestTimestampFrom_mem st.resolvedPos tsMap 0

/-- Witness for C10 at a concrete buffer, map and chunk sequence. -/
theorem timestamps_never_invented_witness :
    ({ text := ['c', 'd'], start_time := 2 } : Chunk).start_time = 0 ∨
      ∃ k, (k, ({ text := ['c', 'd'], start_time := 2 } : Chunk).start_time) ∈
        [((0 : Nat), (1 : ℚ)), (3, 2)] :=
  timestamps_never_invented "ab cd ".toList [(0, 1), (3, 2)] 0
    ["ab".toList, "cd".toList] { text := ['c', 'd'], start_time := 2 } (by decide)

/-- The batch fold is the concatenation of the per-video record lists. -/
theorem processVideos_flatten_from (splitText : Buf → List Buf) :
    ∀ (videos : List (String × FetchResult)) (acc : List Record),
      videos.foldl (fun a v => a ++ perVideoRecords splitText v.1 v.2) acc =
        acc ++ (videos.map (fun v => perVideoRecords splitText v.1 v.2)).flatten := by
  intro videos
  induction videos with
  | nil => intro acc; simp
  | cons v vs ih =>
      intro acc
      simp only [List.foldl_cons, List.map_cons, List.flatten_cons, ih, List.append_assoc]

/-- C6: a transcript-fetch failure on one video yields an empty chunk list
for that video (both caught exception classes), and the batch loop still
processes every other video: the final record set is exactly the
concatenation of the records of the videos around the failing one. -/
theorem video_failure_isolated (splitText : Buf → List Buf)
    (pre post : List (String × FetchResult)) (url : String) (f : FetchResult)
    (hf : ∀ s, f ≠ FetchResult.ok s) :
    createChunksWithTimestamps splitText f = [] ∧
    processVideos splitText (pre ++ (url, f) :: post) =
      processVideos splitText pre ++ processVideos splitText post := by
  have hempty : createChunksWithTimestamps splitText f = [] := by
    cases f with
    | ok s => exact absurd rfl (hf s)
    | noTranscript => rfl
    | fetchError => rfl
  refine ⟨hempty, ?_⟩
  have hmid : perVideoRecords splitText url f = [] := by
    simp [perVideoRecords, hempty]
  show (pre ++ (url, f) :: post).foldl
      (fun a v => a ++ perVideoRecords splitText v.1 v.2) [] = _
  rw [processVideos_flatten_from splitText (pre ++ (url, f) :: post) []]
  show _ = pre.foldl (fun a v => a ++ perVideoRecords splitText v.1 v.2) [] ++
    post.foldl (fun a v => a ++ perVideoRecords splitText v.1 v.2) []
  rw [processVideos_flatten_from splitText pre [],
    processVideos_flatten_from splitText post []]
  simp [hmid]

/-- Witness for C6: video B's fetch raises while A and C succeed; the batch
yields exactly A's records followed by C's records. -/
theorem video_failure_isolated_witness :
    createChunksWithTimestamps (fun b => [b]) FetchResult.noTranscript = [] ∧
    processVideos (fun b => [b])
        [("A", FetchResult.ok [{ text := ['h', 'i'], start := 1 }]),
         ("B", FetchResult.noTranscript),
         ("C", FetchResult.ok [{ text := ['y', 'o'], start := 2 }])] =
      processVideos (fun b => [b])
          [("A", FetchResult.ok [{ text := ['h', 'i'], start := 1 }])] ++
        processVideos (fun b => [b])
          [("C", FetchResult.ok [{ text := ['y', 'o'], start := 2 }])] :=
  video_failure_isolated (fun b => [b])
    [("A", FetchResult.ok [{ text := ['h', 'i'], start := 1 }])]
    [("C", FetchResult.ok [{ text := ['y', 'o'], start := 2 }])]
    "B" FetchResult.noTranscript (fun _ h => FetchResult.noConfusion h)

/-- Unfolding of the builder loop: arbitrary accumulators. -/
theorem buildTranscriptAux_eq :
    ∀ (snippets : List Snippet) (full : Buf) (tsMap : List (Nat × ℚ)) (pos : Nat),
      buildTranscriptAux full tsMap pos snippets =
        (full ++ catTexts snippets, tsMap ++ offsetsFrom pos snippets) := by
  intro snippets
  induction snippets with
  | nil => intro full tsMap pos; simp [buildTranscriptAux, catTexts, offsetsFrom]
  | cons s rest ih =>
      intro full tsMap pos
      simp [buildTranscriptAux, catTexts, offsetsFrom, ih, Nat.add_assoc]

/-- Every key recorded after position `p` is at least `p`. -/
theorem offsetsFrom_mem_le :
    ∀ (l : List Snippet) (p : Nat) (e : Nat × ℚ), e ∈ offsetsFrom p l → p ≤ e.1 := by
  intro l
  induction l with
  | nil => intro p e h; simp [offsetsFrom] at h
  | cons s rest ih =>
      intro p e h
      simp only [offsetsFrom, List.mem_cons] at h
      rcases h with rfl | h
      · exact Nat.le_refl p
      · have := ih (p + s.text.length + 1) e h
        omega

/-- Keys are strictly increasing in insertion order. -/
theorem offsetsFrom_pairwise :
    ∀ (l : List Snippet) (p : Nat),
      List.Pairwise (fun a b => a.1 < b.1) (offsetsFrom p l) := by
  intro l
  induction l with
  | nil => intro p; exact List.Pairwise.nil
  | cons s rest ih =>
      intro p
      refine List.Pairwise.cons ?_ (ih _)
      intro e he
      have := offsetsFrom_mem_le rest (p + s.text.length + 1) e he
      simp only
      omega

/-- Alignment: the `i`-th recorded key points at the exact place where the
`i`-th snippet's text begins in the concatenated buffer. -/
theorem offsetsFrom_align :
    ∀ (l : List Snippet) (p i : Nat) (s : Snippet), l[i]? = some s →
      ∃ k, (offsetsFrom p l)[i]? = some (k, s.start) ∧ p ≤ k ∧
        ((catTexts l).drop (k - p)).take s.text.length = s.text := by
  intro l
  induction l with
  | nil => intro p i s h; simp at h
  | cons a rest ih =>
      intro p i s h
      cases i with
      | zero =>
          rw [List.getElem?_cons_zero, Option.some.injEq] at h
          subst h
          refine ⟨p, by rw [offsetsFrom, List.getElem?_cons_zero], Nat.le_refl p, ?_⟩
          rw [Nat.sub_self, List.drop_zero, catTexts, List.append_assoc,
            List.take_left]
      | succ j =>
          rw [List.getElem?_cons_succ] at h
          obtain ⟨k, hk, hpk, ht⟩ := ih (p + a.text.length + 1) j s h
          refine ⟨k, ?_, by omega, ?_⟩
          · rw [offsetsFrom, List.getElem?_cons_succ]
            exact hk
          · have hsplit : k - p = (a.text ++ [' ']).length +
                (k - (p + a.text.length + 1)) := by
              simp only [List.length_append, List.length_cons, List.length_nil]
              omega
            rw [catTexts, hsplit, List.drop_append]
            exact ht

/-- C2: for a non-empty snippet sequence the builder's buffer is the
concatenation of every snippet's text each followed by one space, its map
is exactly the offset table of the snippets (keys strictly increasing in
insertion order), and the `i`-th key is the exact character offset at which
the `i`-th snippet's text begins in the buffer, with that snippet's start
time as value. -/
theorem timestamp_map_builder_correct (snippets : List Snippet)
    (_hne : snippets ≠ []) :
    (buildTranscript snippets).1 = catTexts snippets ∧
    (buildTranscript snippets).2 = offsetsFrom 0 snippets ∧
    List.Pairwise (fun a b => a.1 < b.1) (buildTranscript snippets).2 ∧
    ∀ (i : Nat) (s : Snippet), snippets[i]? = some s →
      ∃ k, (buildTranscript snippets).2[i]? = some (k, s.start) ∧
        ((buildTranscript snippets).1.drop k).take s.text.length = s.text := by
  have hb : buildTranscript snippets = (catTexts snippets, offsetsFrom 0 snippets) := by
    have h := buildTranscriptAux_eq snippets [] [] 0
    simpa [buildTranscript] using h
  rw [hb]
  refine ⟨rfl, rfl, offsetsFrom_pairwise snippets 0, ?_⟩
  intro i s hs
  obtain ⟨k, hk, _, ht⟩ := offsetsFrom_align snippets 0 i s hs
  exact ⟨k, hk, by simpa using ht⟩

/-- Witness for C2 at a concrete two-snippet transcript, checking the
second snippet's map entry. -/
theorem timestamp_map_builder_correct_witness :
    ∃ k, (buildTranscript [{ text := ['a', 'b'], start := 1 },
        { text := ['c'], start := 2 }]).2[1]? = some (k, (2 : ℚ)) ∧
      ((buildTranscript [{ text := ['a', 'b'], start := 1 },
          { text := ['c'], start := 2 }]).1.drop k).take 1 = ['c'] :=
  (timestamp_map_builder_correct
      [{ text := ['a', 'b'], start := 1 }, { text := ['c'], start := 2 }]
      (by decide)).2.2.2 1 { text := ['c'], start := 2 } (by decide)

/-- When every remaining key exceeds the target offset, the scan keeps its
accumulator (the loop breaks at the first such entry). -/
theorem closestTimestampFrom_all_gt (acc : ℚ) (l : List (Nat × ℚ)) (pos : Nat)
    (h : ∀ e ∈ l, pos < e.1) : closestTimestampFrom acc l pos = acc := by
  cases l with
  | nil => rfl
  | cons e rest =>
      have he := h e (List.mem_cons_self e rest)
      simp [closestTimestampFrom, Nat.not_le.mpr he]

/-- On a map with strictly increasing keys the scan returns the value of
the maximal entry whose key is at most the target offset. -/
theorem closestTimestampFrom_greatest :
    ∀ (l : List (Nat × ℚ)) (acc : ℚ) (pos : Nat),
      List.Pairwise (fun a b => a.1 < b.1) l →
      ∀ e ∈ l, e.1 ≤ pos → (∀ f ∈ l, f.1 ≤ pos → f.1 ≤ e.1) →
      closestTimestampFrom acc l pos = e.2 := by
  intro l
  induction l with
  | nil => intro acc pos _ e he; exact absurd he (List.not_mem_nil e)
  | cons a rest ih =>
      intro acc pos hp e he hle hmax
      obtain ⟨ha, hprest⟩ := List.pairwise_cons.mp hp
      rcases List.mem_cons.mp he with rfl | hemem
      · rw [closestTimestampFrom, if_pos hle]
        refine closestTimestampFrom_all_gt e.2 rest pos ?_
        intro f hf
        by_contra hnot
        have hf1 : f.1 ≤ pos := Nat.le_of_not_lt hnot
        have := hmax f (List.mem_cons_of_mem e hf) hf1
        exact absurd (ha f hf) (Nat.not_lt.mpr this)
      · have ha1 : a.1 ≤ pos := Nat.le_trans (Nat.le_of_lt (ha e hemem)) hle
        rw [closestTimestampFrom, if_pos ha1]
        exact ih a.2 pos hprest e hemem hle
          (fun f hf hf1 => hmax f (List.mem_cons_of_mem a hf) hf1)

/-- C3: for a timestamp map with strictly increasing keys (the shape the
builder produces), an emitted chunk's start time is the value of the map
entry with the greatest key that is at most the chunk's resolved offset,
and `0` when no key qualifies (in particular for the empty map). -/
theorem start_time_resolves_greatest_key (buffer : Buf) (tsMap : List (Nat × ℚ))
    (s : Nat) (texts : List Buf) (st : LocStep)
    (hsorted : List.Pairwise (fun a b => a.1 < b.1) tsMap)
    (hst : st ∈ locateChunksAux buffer tsMap s texts) :
    ((∀ e ∈ tsMap, st.resolvedPos < e.1) → st.chunk.start_time = 0) ∧
    (∀ e ∈ tsMap, e.1 ≤ st.resolvedPos →
      (∀ f ∈ tsMap, f.1 ≤ st.resolvedPos → f.1 ≤ e.1) →
      st.chunk.start_time = e.2) := by
  have hc := (locateChunksAux_mem buffer tsMap texts s st hst).2.2
  constructor
  · intro hall
    rw [hc]
    exact closestTimestampFrom_all_gt 0 tsMap st.resolvedPos hall
  · intro e he hle hmax
    rw [hc]
    exact closestTimestampFrom_greatest tsMap 0 st.resolvedPos hsorted e he hle hmax

/-- Witness for C3, realizing the spec's scenario: snippets at start times
0, 5, 12, 30, and a chunk resolving between the 12-second and 30-second
snippet offsets resolves to start time 12 (not 30, not 0). -/
theorem start_time_resolves_greatest_key_witness :
    ({ searchStart := 0, resolvedPos := 15, rawText := "bcd".toList,
       chunk := { text := "bcd".toList, start_time := 12 } } : LocStep).chunk.start_time
      = (12 : ℚ) :=
  (start_time_resolves_greatest_key "aaaaaaaaaaaaaaabcd".toList
      [(0, 0), (6, 5), (12, 12), (20, 30)] 0 ["bcd".toList]
      { searchStart := 0, resolvedPos := 15, rawText := "bcd".toList,
        chunk := { text := "bcd".toList, start_time := 12 } }
      (by decide) (by decide)).2 (12, 12) (by decide) (by decide) (by decide)
